import Mathlib

/-!
Shallow embedding of the plywood-inventory order-fulfillment core
(`backend/app/routers/orders.py`, `backend/app/routers/inventory.py`,
`backend/app/auth/dependencies.py`).

The persistence collaborator (a keyed record store reached over the network)
is modelled as an in-memory `Store` of three tables, each a list of records
in insertion order; a filtered select is a list filter, an insert appends,
an update maps, a delete filters out.  Remote calls that may fail are
modelled by an explicit failure schedule `FailSpec`: a failed call leaves the
store unchanged and returns an empty result set, exactly the condition the
source code checks (`if not result.data`).  Commit-phase writes are traced as
`WriteEvent`s so that ordering claims can be stated.
-/

namespace Plywood

inductive OrderStatus where
  | pending
  | processing
  | fulfilled
deriving DecidableEq, Repr

structure InvItem where
  id : String
  name : String
  stock_level : Int
deriving DecidableEq, Repr

structure OrderRec where
  id : Nat
  customer_name : String
  status : OrderStatus
  created_by : String
deriving DecidableEq, Repr

structure OrderItemRec where
  id : Nat
  order_id : Nat
  item_id : String
  quantity : Nat
deriving DecidableEq, Repr

structure Store where
  inventory_items : List InvItem
  orders : List OrderRec
  order_items : List OrderItemRec
  nextOrderId : Nat
  nextLineId : Nat
deriving DecidableEq, Repr

/-- Request model `OrderItemCreate` (pydantic validates `quantity > 0` at the
boundary; theorems that need it take it as a hypothesis). -/
structure OrderItemCreate where
  item_id : String
  quantity : Nat
deriving DecidableEq, Repr

/-- Request model `OrderCreate`. -/
structure OrderCreate where
  customer_name : String
  items : List OrderItemCreate
deriving DecidableEq, Repr

structure OrderItemResponse where
  id : Nat
  item_id : String
  item_name : String
  quantity : Nat
deriving DecidableEq, Repr

structure OrderResponse where
  id : Nat
  customer_name : String
  status : OrderStatus
  items : List OrderItemResponse
  created_by : String
deriving DecidableEq, Repr

/-- `db.client.table("inventory_items").select("*").eq("id", iid).execute()`. -/
def selectInvById (s : Store) (iid : String) : List InvItem :=
  s.inventory_items.filter (fun it => it.id == iid)

/-- `db.client.table("orders").select("*").eq("id", oid).execute()`. -/
def selectOrderById (s : Store) (oid : Nat) : List OrderRec :=
  s.orders.filter (fun o => o.id == oid)

/-- `db.client.table("order_items").select(...).eq("order_id", oid).execute()`. -/
def selectLinesByOrder (s : Store) (oid : Nat) : List OrderItemRec :=
  s.order_items.filter (fun l => l.order_id == oid)

/-- `db.client.table("inventory_items").update({"stock_level": lvl}).eq("id", iid)`. -/
def updateStockLevel (s : Store) (iid : String) (lvl : Int) : Store :=
  { s with inventory_items :=
      s.inventory_items.map (fun it =>
        if it.id == iid then { it with stock_level := lvl } else it) }

/-- `db.client.table("orders").delete().eq("id", oid).execute()` — the
compensation step; it touches only the `orders` table. -/
def deleteOrderById (s : Store) (oid : Nat) : Store :=
  { s with orders := s.orders.filter (fun o => !(o.id == oid)) }

/-- The per-line portion of the pre-validation loop: look the item up, append
an error message on a missing item or on `stock_level < quantity`, and record
the row read in the `inventory_items` dict (modelled as an association list
whose lookup takes the most recent write). -/
def validateStep (s : Store) (acc : List String × List (String × InvItem))
    (oi : OrderItemCreate) : List String × List (String × InvItem) :=
  match selectInvById s oi.item_id with
  | [] => (acc.1 ++ ["Inventory item " ++ oi.item_id ++ " not found"], acc.2)
  | item :: _ =>
    let cache := (oi.item_id, item) :: acc.2
    if item.stock_level < (oi.quantity : Int) then
      (acc.1 ++ ["Insufficient stock for item " ++ item.name ++
        ". Requested: " ++ toString oi.quantity ++
        ", Available: " ++ toString item.stock_level], cache)
    else
      (acc.1, cache)

/-- The whole pre-validation phase: returns the aggregated error list and the
dict of inventory rows read. -/
def validateItems (s : Store) (items : List OrderItemCreate) :
    List String × List (String × InvItem) :=
  items.foldl (validateStep s) ([], [])

/-- Lookup in the pre-validation dict (`inventory_items[order_item.item_id]`):
the most recent write for a key wins. -/
def cacheLookup (c : List (String × InvItem)) (iid : String) : Option InvItem :=
  (c.find? (fun p => p.1 == iid)).map (fun p => p.2)

/-- Failure schedule for the remote insert/update calls of one
`create_order` request: `headerFails` makes the order-header insert return an
empty result, `lineFails k` the order-line insert of line `k`, and
`stockFails k` the stock update of line `k`.  A failed call leaves the store
unchanged. -/
structure FailSpec where
  headerFails : Bool
  lineFails : Nat → Bool
  stockFails : Nat → Bool

/-- The all-success schedule. -/
def noFail : FailSpec :=
  { headerFails := false, lineFails := fun _ => false, stockFails := fun _ => false }

inductive WriteEvent where
  | insertHeader (oid : Nat)
  | insertLine (lid oid : Nat) (iid : String) (qty : Nat)
  | updateStock (iid : String) (newLevel : Int)
  | deleteHeader (oid : Nat)
deriving DecidableEq, Repr

inductive CreateResult where
  | insufficientStock (details : List String)
  | serverError (detail : String)
  | forbidden
  | ok (resp : OrderResponse)
deriving DecidableEq, Repr

/-- Outcome of the commit-phase loop over order lines. -/
inductive CommitResult where
  | failed (detail : String) (s : Store) (evs : List WriteEvent)
  | done (s : Store) (evs : List WriteEvent) (resps : List OrderItemResponse)
deriving Repr

/-- The commit-phase loop of `create_order` (orders.py lines 87–127): for
each line in request order, insert the order-item row, then write the stock
level of that item to (pre-validation stock) − (this line's quantity).  A
failed line insert, or a stock update that fails or matches no row, deletes
the order header (compensation) and stops with a 500 detail; stock updates
already applied for earlier lines are left in place.  A missing dict key
(unreachable after a clean validation) raises `KeyError`, caught by the
generic handler: a 500 with no compensation. -/
def commitLines (fs : FailSpec) (cache : List (String × InvItem)) (oid : Nat) :
    List OrderItemCreate → Nat → Store → List WriteEvent →
    List OrderItemResponse → CommitResult
  | [], _, s, evs, resps => .done s evs resps
  | oi :: rest, k, s, evs, resps =>
    if fs.lineFails k then
      .failed "Failed to create order items" (deleteOrderById s oid)
        (evs ++ [.deleteHeader oid])
    else
      let lid := s.nextLineId
      let s1 : Store := { s with
        order_items := s.order_items ++ [⟨lid, oid, oi.item_id, oi.quantity⟩],
        nextLineId := lid + 1 }
      let evs1 := evs ++ [.insertLine lid oid oi.item_id oi.quantity]
      match cacheLookup cache oi.item_id with
      | none => .failed "Internal server error during order creation" s1 evs1
      | some item =>
        let newLevel := item.stock_level - (oi.quantity : Int)
        if fs.stockFails k || (selectInvById s1 oi.item_id).isEmpty then
          .failed "Failed to update inventory stock levels"
            (deleteOrderById s1 oid) (evs1 ++ [.deleteHeader oid])
        else
          commitLines fs cache oid rest (k + 1)
            (updateStockLevel s1 oi.item_id newLevel)
            (evs1 ++ [.updateStock oi.item_id newLevel])
            (resps ++ [⟨lid, oi.item_id, item.name, oi.quantity⟩])

/-- `create_order` (orders.py lines 29–147), after the role guard: validate
every line first, reject with the aggregated error list if any line is
unsatisfiable; otherwise insert the order header with status `pending` and
run the commit loop.  Returns the HTTP-level result, the final store, and
the trace of commit-phase writes. -/
def create_order (fs : FailSpec) (user_id : String) (order_data : OrderCreate)
    (s : Store) : CreateResult × Store × List WriteEvent :=
  let v := validateItems s order_data.items
  if v.1.isEmpty then
    if fs.headerFails then
      (.serverError "Failed to create order", s, [])
    else
      let oid := s.nextOrderId
      let created : OrderRec := ⟨oid, order_data.customer_name, .pending, user_id⟩
      let s1 : Store := { s with orders := s.orders ++ [created],
                                 nextOrderId := oid + 1 }
      match commitLines fs v.2 oid order_data.items 0 s1 [.insertHeader oid] [] with
      | .failed d s2 evs => (.serverError d, s2, evs)
      | .done s2 evs resps =>
        (.ok ⟨created.id, created.customer_name, created.status, resps,
              created.created_by⟩, s2, evs)
  else
    (.insufficientStock v.1, s, [])

inductive GetResult where
  | notFound
  | serverError (detail : String)
  | forbidden
  | ok (resp : OrderResponse)
deriving DecidableEq, Repr

/-- The response-assembly loop over order-item rows: each row paired with the
current `name` of its inventory item, as produced by the embedded join
`select("*, inventory_items(name)")`.  A dangling `item_id` makes the name
access raise, caught as a 500 (`none` here). -/
def joinRows (s : Store) : List OrderItemRec → Option (List OrderItemResponse)
  | [] => some []
  | l :: rest =>
    match selectInvById s l.item_id with
    | [] => none
    | item :: _ =>
      match joinRows s rest with
      | none => none
      | some out => some (⟨l.id, l.item_id, item.name, l.quantity⟩ :: out)

/-- Re-read the lines of an order together with current item names. -/
def joinOrderLines (s : Store) (oid : Nat) : Option (List OrderItemResponse) :=
  joinRows s (selectLinesByOrder s oid)

/-- `get_order_details` (orders.py lines 150–206), after the guard. -/
def get_order_details (s : Store) (oid : Nat) : GetResult :=
  match selectOrderById s oid with
  | [] => .notFound
  | order :: _ =>
    match joinOrderLines s oid with
    | none => .serverError "Internal server error while retrieving order details"
    | some resps =>
      .ok ⟨order.id, order.customer_name, order.status, resps, order.created_by⟩

/-- `update_order_status` (orders.py lines 209–283), after the guard: 404 on
a missing order, otherwise write the new status unconditionally (the current
status is read but not constrained) and answer with the updated header and
the freshly re-read lines. -/
def update_order_status (s : Store) (oid : Nat) (new_status : OrderStatus) :
    GetResult × Store :=
  match selectOrderById s oid with
  | [] => (.notFound, s)
  | _ :: _ =>
    let newOrders := s.orders.map (fun o =>
      if o.id == oid then { o with status := new_status } else o)
    let s1 : Store := { s with orders := newOrders }
    match selectOrderById s1 oid with
    | [] => (.serverError "Failed to update order status", s1)
    | updated :: _ =>
      match joinOrderLines s1 oid with
      | none => (.serverError "Internal server error during order status update", s1)
      | some resps =>
        (.ok ⟨updated.id, updated.customer_name, updated.status, resps,
              updated.created_by⟩, s1)

inductive RenameResult where
  | notFound
  | conflict
  | renamed
deriving DecidableEq, Repr

/-- The name-update core of `update_inventory_item`
(inventory.py lines 117–175): 404 on a missing item, 409 when another item
already has the name, else write the new name. -/
def rename_inventory_item (s : Store) (iid : String) (newName : String) :
    RenameResult × Store :=
  match selectInvById s iid with
  | [] => (.notFound, s)
  | _ :: _ =>
    if (s.inventory_items.filter
          (fun it => it.name == newName && !(it.id == iid))).isEmpty then
      (.renamed, { s with inventory_items :=
        s.inventory_items.map (fun it =>
          if it.id == iid then { it with name := newName } else it) })
    else
      (.conflict, s)

/-- `require_salesperson` (dependencies.py lines 82–100). -/
def require_salesperson (role : String) : Bool :=
  role == "salesperson"

/-- `require_warehouse_manager_or_admin` (dependencies.py lines 60–79). -/
def require_warehouse_manager_or_admin (role : String) : Bool :=
  ["warehouse_manager", "admin"].contains role

/-- `require_authenticated_user` (dependencies.py lines 125–135): any
authenticated principal passes. -/
def require_authenticated_user (_role : String) : Bool :=
  true

/-- `POST /orders` with its role guard: only a salesperson reaches the core. -/
def create_order_endpoint (fs : FailSpec) (role user_id : String)
    (order_data : OrderCreate) (s : Store) :
    CreateResult × Store × List WriteEvent :=
  if require_salesperson role then
    create_order fs user_id order_data s
  else
    (.forbidden, s, [])

/-- `GET /orders/{id}` with its guard: any authenticated role may read. -/
def get_order_details_endpoint (role : String) (s : Store) (oid : Nat) : GetResult :=
  if require_authenticated_user role then
    get_order_details s oid
  else
    .forbidden

/-- `PUT /orders/{id}/status` with its role guard. -/
def update_order_status_endpoint (role : String) (s : Store) (oid : Nat)
    (new_status : OrderStatus) : GetResult × Store :=
  if require_warehouse_manager_or_admin role then
    update_order_status s oid new_status
  else
    (.forbidden, s)

/-! ### Derived predicates used to state the claims -/
/-- A request line is unsatisfiable: its item is absent, or the first
matching row's stock is below the requested quantity. -/
def lineUnsat (s : Store) (oi : OrderItemCreate) : Bool :=
  match selectInvById s oi.item_id with
  | [] => true
  | item :: _ => item.stock_level < (oi.quantity : Int)

/-- A request line whose item exists but whose quantity exceeds the
available stock. -/
def lineOverStock (s : Store) (oi : OrderItemCreate) : Bool :=
  match selectInvById s oi.item_id with
  | [] => false
  | item :: _ => item.stock_level < (oi.quantity : Int)

/-- The error message the pre-validation loop appends for an unsatisfiable
line. -/
def lineErrMsg (s : Store) (oi : OrderItemCreate) : String :=
  match selectInvById s oi.item_id with
  | [] => "Inventory item " ++ oi.item_id ++ " not found"
  | item :: _ =>
    "Insufficient stock for item " ++ item.name ++
      ". Requested: " ++ toString oi.quantity ++
      ", Available: " ++ toString item.stock_level

/-- Every stored stock level is non-negative. -/
def storeStockNonneg (s : Store) : Prop :=
  ∀ it ∈ s.inventory_items, 0 ≤ it.stock_level

/-- Every entry of the pre-validation dict is the first matching inventory
row of the store. -/
def cacheFaithful (s : Store) (c : List (String × InvItem)) : Prop :=
  ∀ p ∈ c, (selectInvById s p.1).head? = some p.2

/-! ### Commit-phase bookkeeping -/
/-- The order-item rows the commit loop inserts, in request order, with
consecutive line ids. -/
def mkLineRows (oid : Nat) : Nat → List OrderItemCreate → List OrderItemRec
  | _, [] => []
  | lid, oi :: rest => ⟨lid, oid, oi.item_id, oi.quantity⟩ :: mkLineRows oid (lid + 1) rest

/-- The response entries the commit loop accumulates: one per line, carrying
the item name read during pre-validation. -/
def mkLineResponses (cache : List (String × InvItem)) :
    Nat → List OrderItemCreate → List OrderItemResponse
  | _, [] => []
  | lid, oi :: rest =>
    match cacheLookup cache oi.item_id with
    | none => []
    | some itm =>
      ⟨lid, oi.item_id, itm.name, oi.quantity⟩ :: mkLineResponses cache (lid + 1) rest

/-- The write sequence the spec prescribes for a fully successful commit:
for each line in request order, the line insert immediately followed by the
stock write of that item, each stock write storing the pre-validation level
minus that line's quantity. -/
def expectedTrace (cache : List (String × InvItem)) (oid : Nat) :
    Nat → List OrderItemCreate → List WriteEvent
  | _, [] => []
  | lid, oi :: rest =>
    match cacheLookup cache oi.item_id with
    | none => []
    | some itm =>
      .insertLine lid oid oi.item_id oi.quantity ::
        .updateStock oi.item_id (itm.stock_level - (oi.quantity : Int)) ::
          expectedTrace cache oid (lid + 1) rest

/-- The inventory effect of committing one line: the item's rows are set to
the pre-validation stock minus this line's quantity. -/
def applyLineStock (cache : List (String × InvItem)) (oi : OrderItemCreate)
    (inv : List InvItem) : List InvItem :=
  match cacheLookup cache oi.item_id with
  | none => inv
  | some itm =>
    inv.map (fun it =>
      if it.id == oi.item_id then
        { it with stock_level := itm.stock_level - (oi.quantity : Int) }
      else it)

/-- The inventory effect of committing a list of lines in order. -/
def decrementsApplied (cache : List (String × InvItem))
    (items : List OrderItemCreate) (inv : List InvItem) : List InvItem :=
  items.foldl (fun inv oi => applyLineStock cache oi inv) inv

def resultStore : CommitResult → Store
  | .failed _ s _ => s
  | .done s _ _ => s

def resultEvents : CommitResult → List WriteEvent
  | .failed _ _ evs => evs
  | .done _ evs _ => evs

/-- A trace event that never records a negative stock write. -/
def evNonneg : WriteEvent → Prop
  | .updateStock _ lvl => 0 ≤ lvl
  | _ => True

/-! ### Pointwise view of the committed stock writes -/
/-- The level written by the last committed line that matches `iid`
(the later of two duplicate lines wins, because each write stores the
pre-validation level minus only its own quantity). -/
def lastHit (cache : List (String × InvItem)) (iid : String) :
    List OrderItemCreate → Option Int
  | [] => none
  | oi :: rest =>
    match lastHit cache iid rest with
    | some lvl => some lvl
    | none =>
      if oi.item_id == iid then
        (cacheLookup cache oi.item_id).map
          (fun itm => itm.stock_level - (oi.quantity : Int))
      else none

/-- The quantity of the last request line matching `iid`. -/
def lastQtyFor (iid : String) : List OrderItemCreate → Option Nat
  | [] => none
  | oi :: rest =>
    match lastQtyFor iid rest with
    | some q => some q
    | none => if oi.item_id == iid then some oi.quantity else none

/-- How one inventory row looks after all the commit loop's stock writes. -/
def stockView (cache : List (String × InvItem)) (items : List OrderItemCreate)
    (it : InvItem) : InvItem :=
  match lastHit cache it.id items with
  | none => it
  | some lvl => { it with stock_level := lvl }

/-- Sample store with items A (stock 5) and B (stock 2), as in the spec's
worked examples. -/
def storeAB : Store :=
  ⟨[⟨"A", "Widget", 5⟩, ⟨"B", "Board", 2⟩], [], [], 1, 1⟩

/-- The spec's worked success example: request A:3, B:1. -/
def reqAB : OrderCreate :=
  ⟨"c", [⟨"A", 3⟩, ⟨"B", 1⟩]⟩

/-- A failure schedule whose only failing call is the stock update of line
`n`. -/
def failStockAt (n : Nat) : FailSpec :=
  { headerFails := false, lineFails := fun _ => false, stockFails := fun k => k == n }

/-- Store holding one pending order (id 1, one line of item A). -/
def storeWithOrder : Store :=
  ⟨[⟨"A", "Widget", 4⟩], [⟨1, "c", .pending, "u"⟩], [⟨1, 1, "A", 1⟩], 2, 2⟩

/-! ### Pre-validation lemmas -/
theorem validateStep_errors (s : Store) (acc : List String × List (String × InvItem))
    (oi : OrderItemCreate) :
    (validateStep s acc oi).1 =
      acc.1 ++ (if lineUnsat s oi then [lineErrMsg s oi] else []) := by
  unfold validateStep lineUnsat lineErrMsg
  cases h : selectInvById s oi.item_id with
  | nil => simp
  | cons item rest =>
    by_cases hlt : item.stock_level < (oi.quantity : Int) <;> simp [hlt]

theorem validateItems_errors_aux (s : Store) :
    ∀ (items : List OrderItemCreate) (acc : List String × List (String × InvItem)),
      (items.foldl (validateStep s) acc).1 =
        acc.1 ++ (items.filter (fun oi => lineUnsat s oi)).map (lineErrMsg s) := by
  intro items
  induction items with
  | nil => intro acc; simp
  | cons oi rest ih =>
    intro acc
    rw [List.foldl_cons, ih (validateStep s acc oi), validateStep_errors]
    by_cases h : lineUnsat s oi = true <;> simp [h, List.append_assoc]

/-- The aggregated error list is exactly one message per unsatisfiable line,
in request order. -/
theorem validateItems_errors (s : Store) (items : List OrderItemCreate) :
    (validateItems s items).1 =
      (items.filter (fun oi => lineUnsat s oi)).map (lineErrMsg s) := by
  unfold validateItems
  rw [validateItems_errors_aux]
  simp

theorem validateStep_faithful (s : Store) (acc : List String × List (String × InvItem))
    (oi : OrderItemCreate) (h : cacheFaithful s acc.2) :
    cacheFaithful s (validateStep s acc oi).2 := by
  unfold validateStep
  cases hsel : selectInvById s oi.item_id with
  | nil => simpa using h
  | cons item rest =>
    by_cases hlt : item.stock_level < (oi.quantity : Int) <;>
      · simp only [hlt, if_true, if_false, ite_true, ite_false]
        intro p hp
        rcases List.mem_cons.mp hp with hp | hp
        · subst hp; simp [hsel]
        · exact h p hp

theorem validateItems_faithful_aux (s : Store) :
    ∀ (items : List OrderItemCreate) (acc : List String × List (String × InvItem)),
      cacheFaithful s acc.2 →
      cacheFaithful s (items.foldl (validateStep s) acc).2 := by
  intro items
  induction items with
  | nil => intro acc h; simpa using h
  | cons oi rest ih =>
    intro acc h
    rw [List.foldl_cons]
    exact ih _ (validateStep_faithful s acc oi h)

theorem validateItems_faithful (s : Store) (items : List OrderItemCreate) :
    cacheFaithful s (validateItems s items).2 := by
  unfold validateItems
  exact validateItems_faithful_aux s items ([], []) (by intro p hp; simp at hp)

theorem cacheLookup_cons_isSome (k : String) (v : InvItem)
    (c : List (String × InvItem)) (iid : String)
    (h : (cacheLookup c iid).isSome) :
    (cacheLookup ((k, v) :: c) iid).isSome := by
  unfold cacheLookup at h ⊢
  by_cases hk : (k == iid) = true
  · simp [List.find?, hk]
  · simp [List.find?, hk] at h ⊢
    exact h

theorem validateStep_cache_mono (s : Store) (acc : List String × List (String × InvItem))
    (oi : OrderItemCreate) (iid : String)
    (h : (cacheLookup acc.2 iid).isSome) :
    (cacheLookup (validateStep s acc oi).2 iid).isSome := by
  unfold validateStep
  cases hsel : selectInvById s oi.item_id with
  | nil => simpa using h
  | cons item rest =>
    by_cases hlt : item.stock_level < (oi.quantity : Int) <;>
      · simp only [hlt, ite_true, ite_false]
        exact cacheLookup_cons_isSome _ _ _ _ h

theorem validateItems_cache_mono_aux (s : Store) :
    ∀ (items : List OrderItemCreate) (acc : List String × List (String × InvItem))
      (iid : String), (cacheLookup acc.2 iid).isSome →
      (cacheLookup (items.foldl (validateStep s) acc).2 iid).isSome := by
  intro items
  induction items with
  | nil => intro acc iid h; simpa using h
  | cons oi rest ih =>
    intro acc iid h
    rw [List.foldl_cons]
    exact ih _ _ (validateStep_cache_mono s acc oi iid h)

/-- When pre-validation reports no error, every request line is individually
satisfiable and has a dict entry. -/
theorem validateItems_covers_aux (s : Store) :
    ∀ (items : List OrderItemCreate) (acc : List String × List (String × InvItem)),
      (items.foldl (validateStep s) acc).1 = [] →
      ∀ oi ∈ items,
        (cacheLookup (items.foldl (validateStep s) acc).2 oi.item_id).isSome ∧
        lineUnsat s oi = false := by
  intro items
  induction items with
  | nil => intro acc _ oi hoi; simp at hoi
  | cons oi0 rest ih =>
    intro acc herr oi hoi
    rw [List.foldl_cons] at herr ⊢
    have hstep : (validateStep s acc oi0).1 = [] := by
      have := validateItems_errors_aux s rest (validateStep s acc oi0)
      rw [herr] at this
      rcases List.append_eq_nil.mp this.symm with ⟨h1, _⟩
      exact h1
    have hsat : lineUnsat s oi0 = false := by
      by_contra hne
      have hT : lineUnsat s oi0 = true := by
        cases h' : lineUnsat s oi0 with
        | false => exact absurd h' hne
        | true => rfl
      rw [validateStep_errors, hT] at hstep
      simp at hstep
    rcases List.mem_cons.mp hoi with rfl | hmem
    · refine ⟨?_, hsat⟩
      have hsome : (cacheLookup (validateStep s acc oi).2 oi.item_id).isSome := by
        unfold validateStep
        cases hsel : selectInvById s oi.item_id with
        | nil =>
          exfalso
          unfold lineUnsat at hsat
          rw [hsel] at hsat
          simp at hsat
        | cons item rest' =>
          by_cases hlt : item.stock_level < (oi.quantity : Int) <;>
            · simp only [hlt, ite_true, ite_false]
              unfold cacheLookup
              simp [List.find?]
      exact validateItems_cache_mono_aux s rest _ _ hsome
    · exact ih (validateStep s acc oi0) herr oi hmem

theorem validateItems_covers (s : Store) (items : List OrderItemCreate)
    (h : (validateItems s items).1 = []) :
    ∀ oi ∈ items,
      (cacheLookup (validateItems s items).2 oi.item_id).isSome ∧
      lineUnsat s oi = false :=
  validateItems_covers_aux s items ([], []) h

theorem selectInv_inv_eq {s t : Store} (h : s.inventory_items = t.inventory_items)
    (iid : String) : selectInvById s iid = selectInvById t iid := by
  unfold selectInvById
  rw [h]

/-- A stock write maps the select of any item id through the same
id-preserving record update. -/
theorem selectInv_updateStock (s : Store) (iid : String) (lvl : Int) (jid : String) :
    selectInvById (updateStockLevel s iid lvl) jid =
      (selectInvById s jid).map
        (fun it => if it.id == iid then { it with stock_level := lvl } else it) := by
  unfold selectInvById updateStockLevel
  rw [List.filter_map]
  congr 1
  apply List.filter_congr
  intro it _
  by_cases h : it.id == iid <;> simp [Function.comp, h]

theorem storeStockNonneg_update (s : Store) (iid : String) (lvl : Int)
    (h : storeStockNonneg s) (hlvl : 0 ≤ lvl) :
    storeStockNonneg (updateStockLevel s iid lvl) := by
  intro it hit
  unfold updateStockLevel at hit
  simp only [List.mem_map] at hit
  obtain ⟨it0, hit0, rfl⟩ := hit
  by_cases hid : it0.id == iid <;> simp only [hid, ite_true, ite_false]
  · exact hlvl
  · exact h it0 hit0

/-- Throughout the commit loop, stock levels stay non-negative and every
stock write in the trace records a non-negative level, provided every line
has a dict entry whose stock covers its quantity. -/
theorem commitLines_nonneg (fs : FailSpec) (cache : List (String × InvItem)) (oid : Nat) :
    ∀ (items : List OrderItemCreate) (k : Nat) (s : Store)
      (evs : List WriteEvent) (resps : List OrderItemResponse),
      storeStockNonneg s →
      (∀ oi ∈ items, ∀ itm, cacheLookup cache oi.item_id = some itm →
        (oi.quantity : Int) ≤ itm.stock_level) →
      (∀ ev ∈ evs, evNonneg ev) →
      storeStockNonneg (resultStore (commitLines fs cache oid items k s evs resps)) ∧
      ∀ ev ∈ resultEvents (commitLines fs cache oid items k s evs resps), evNonneg ev := by
  intro items
  induction items with
  | nil =>
    intro k s evs resps hs _ hevs
    exact ⟨hs, hevs⟩
  | cons oi rest ih =>
    intro k s evs resps hs hb hevs
    by_cases hlf : fs.lineFails k = true
    · simp only [commitLines, hlf, ite_true]
      refine ⟨hs, ?_⟩
      intro ev hev
      rcases List.mem_append.mp hev with h | h
      · exact hevs ev h
      · simp at h; subst h; trivial
    · simp only [commitLines, hlf, ite_false, Bool.false_eq_true]
      cases hc : cacheLookup cache oi.item_id with
      | none =>
        refine ⟨hs, ?_⟩
        intro ev hev
        rcases List.mem_append.mp hev with h | h
        · exact hevs ev h
        · simp at h; subst h; trivial
      | some itm =>
        have hq : (oi.quantity : Int) ≤ itm.stock_level :=
          hb oi (List.mem_cons_self oi rest) itm hc
        have hlvl : 0 ≤ itm.stock_level - (oi.quantity : Int) := by omega
        by_cases hsf : (fs.stockFails k ||
            (selectInvById { s with
              order_items := s.order_items ++ [⟨s.nextLineId, oid, oi.item_id, oi.quantity⟩],
              nextLineId := s.nextLineId + 1 } oi.item_id).isEmpty) = true
        · simp only [hsf, ite_true]
          refine ⟨hs, ?_⟩
          intro ev hev
          rcases List.mem_append.mp hev with h | h
          · rcases List.mem_append.mp h with h' | h'
            · exact hevs ev h'
            · simp at h'; subst h'; trivial
          · simp at h; subst h; trivial
        · simp only [hsf, ite_false, Bool.false_eq_true]
          apply ih
          · apply storeStockNonneg_update _ _ _ _ hlvl
            exact hs
          · intro oi' hoi' itm' hc'
            exact hb oi' (List.mem_cons_of_mem oi hoi') itm' hc'
          · intro ev hev
            rcases List.mem_append.mp hev with h | h
            · rcases List.mem_append.mp h with h' | h'
              · exact hevs ev h'
              · simp at h'; subst h'; trivial
            · simp at h; subst h
              exact hlvl

theorem selectInv_set_order_items (s : Store) (rows : List OrderItemRec) (n : Nat)
    (iid : String) :
    selectInvById { s with order_items := rows, nextLineId := n } iid =
      selectInvById s iid := rfl

theorem isEmpty_eq_false_of_ne_nil {α : Type} (l : List α) (h : l ≠ []) :
    l.isEmpty = false := by
  cases l with
  | nil => exact absurd rfl h
  | cons a t => rfl

/-- When every remote write succeeds, the commit loop inserts exactly the
request's rows in order, applies exactly the per-line stock writes in order,
and reports one response entry per line. -/
theorem commitLines_success (fs : FailSpec) (cache : List (String × InvItem)) (oid : Nat)
    (hfl : ∀ j, fs.lineFails j = false) (hfs : ∀ j, fs.stockFails j = false) :
    ∀ (items : List OrderItemCreate) (k : Nat) (s : Store) (evs : List WriteEvent)
      (resps : List OrderItemResponse),
      (∀ oi ∈ items, (cacheLookup cache oi.item_id).isSome) →
      (∀ oi ∈ items, selectInvById s oi.item_id ≠ []) →
      commitLines fs cache oid items k s evs resps =
        .done { s with
            order_items := s.order_items ++ mkLineRows oid s.nextLineId items,
            inventory_items := decrementsApplied cache items s.inventory_items,
            nextLineId := s.nextLineId + items.length }
          (evs ++ expectedTrace cache oid s.nextLineId items)
          (resps ++ mkLineResponses cache s.nextLineId items) := by
  intro items
  induction items with
  | nil =>
    intro k s evs resps _ _
    simp [commitLines, mkLineRows, expectedTrace, mkLineResponses, decrementsApplied]
  | cons oi rest ih =>
    intro k s evs resps hcov hne
    cases hc : cacheLookup cache oi.item_id with
    | none =>
      exfalso
      have := hcov oi (List.mem_cons_self oi rest)
      rw [hc] at this
      simp at this
    | some itm =>
      have hie : (selectInvById { s with
          order_items := s.order_items ++ [⟨s.nextLineId, oid, oi.item_id, oi.quantity⟩],
          nextLineId := s.nextLineId + 1 } oi.item_id).isEmpty = false := by
        rw [selectInv_set_order_items]
        exact isEmpty_eq_false_of_ne_nil _ (hne oi (List.mem_cons_self oi rest))
      simp only [commitLines, hfl k, hfs k, hc, hie, Bool.false_eq_true, ite_false,
        Bool.false_or, if_false]
      rw [ih (k + 1) _ _ _
        (fun oi' hoi' => hcov oi' (List.mem_cons_of_mem oi hoi'))
        (by
          intro oi' hoi'
          rw [selectInv_updateStock]
          simp only [selectInv_set_order_items, ne_eq, List.map_eq_nil_iff]
          exact hne oi' (List.mem_cons_of_mem oi hoi'))]
      simp only [mkLineRows, expectedTrace, mkLineResponses, hc, decrementsApplied,
        List.foldl_cons, applyLineStock]
      congr 1
      · simp only [updateStockLevel, List.append_assoc, List.length_cons,
          List.cons_append, List.nil_append]
        congr 1
        omega
      · simp [updateStockLevel, List.append_assoc]
      · simp [updateStockLevel, List.append_assoc]

theorem filter_not_filter_eq_nil {α : Type} (p : α → Bool) (l : List α) :
    (l.filter (fun a => !(p a))).filter p = [] := by
  induction l with
  | nil => rfl
  | cons a t ih =>
    by_cases h : p a = true <;> simp [List.filter_cons, h, ih]

/-- If the commit loop's first failing remote call is at line `k` (a line
insert or a stock update), the loop stops with the matching 500 detail, the
order header has been deleted, and the stock writes of the `k` earlier lines
remain applied. -/
theorem commitLines_first_fail (fs : FailSpec) (cache : List (String × InvItem))
    (oid : Nat) :
    ∀ (k : Nat) (items : List OrderItemCreate) (k0 : Nat) (s : Store)
      (evs : List WriteEvent) (resps : List OrderItemResponse),
      (∀ j, j < k → fs.lineFails (k0 + j) = false ∧ fs.stockFails (k0 + j) = false) →
      (fs.lineFails (k0 + k) = true ∨ fs.stockFails (k0 + k) = true) →
      k < items.length →
      (∀ oi ∈ items, (cacheLookup cache oi.item_id).isSome) →
      (∀ oi ∈ items, selectInvById s oi.item_id ≠ []) →
      ∃ d s2 evs2, commitLines fs cache oid items k0 s evs resps = .failed d s2 evs2 ∧
        (d = "Failed to create order items" ∨
          d = "Failed to update inventory stock levels") ∧
        s2.orders = s.orders.filter (fun o => !(o.id == oid)) ∧
        s2.inventory_items = decrementsApplied cache (items.take k) s.inventory_items := by
  intro k
  induction k with
  | zero =>
    intro items k0 s evs resps _ hfail hk hcov hne
    cases items with
    | nil => simp at hk
    | cons oi rest =>
      rw [Nat.add_zero] at hfail
      by_cases hl : fs.lineFails k0 = true
      · refine ⟨"Failed to create order items", deleteOrderById s oid,
          evs ++ [.deleteHeader oid], ?_, Or.inl rfl, rfl, ?_⟩
        · simp only [commitLines, hl, ite_true]
        · simp [deleteOrderById, decrementsApplied]
      · have hst : fs.stockFails k0 = true := by
          rcases hfail with h | h
          · exact absurd h hl
          · exact h
        cases hc : cacheLookup cache oi.item_id with
        | none =>
          exfalso
          have := hcov oi (List.mem_cons_self oi rest)
          rw [hc] at this
          simp at this
        | some itm =>
          refine ⟨"Failed to update inventory stock levels",
            deleteOrderById { s with
              order_items := s.order_items ++ [⟨s.nextLineId, oid, oi.item_id, oi.quantity⟩],
              nextLineId := s.nextLineId + 1 } oid,
            evs ++ [.insertLine s.nextLineId oid oi.item_id oi.quantity] ++
              [.deleteHeader oid], ?_, Or.inr rfl, rfl, ?_⟩
          · simp only [commitLines, hl, Bool.false_eq_true, ite_false, hc, hst,
              Bool.true_or, ite_true]
          · simp [deleteOrderById, decrementsApplied]
  | succ k ih =>
    intro items k0 s evs resps hpre hfail hk hcov hne
    cases items with
    | nil => simp at hk
    | cons oi rest =>
      have h0 := hpre 0 (Nat.succ_pos k)
      rw [Nat.add_zero] at h0
      cases hc : cacheLookup cache oi.item_id with
      | none =>
        exfalso
        have := hcov oi (List.mem_cons_self oi rest)
        rw [hc] at this
        simp at this
      | some itm =>
        have hie : (selectInvById { s with
            order_items := s.order_items ++ [⟨s.nextLineId, oid, oi.item_id, oi.quantity⟩],
            nextLineId := s.nextLineId + 1 } oi.item_id).isEmpty = false := by
          rw [selectInv_set_order_items]
          exact isEmpty_eq_false_of_ne_nil _ (hne oi (List.mem_cons_self oi rest))
        have hrec := ih rest (k0 + 1)
          (updateStockLevel { s with
              order_items := s.order_items ++ [⟨s.nextLineId, oid, oi.item_id, oi.quantity⟩],
              nextLineId := s.nextLineId + 1 } oi.item_id
            (itm.stock_level - (oi.quantity : Int)))
          (evs ++ [.insertLine s.nextLineId oid oi.item_id oi.quantity] ++
            [.updateStock oi.item_id (itm.stock_level - (oi.quantity : Int))])
          (resps ++ [⟨s.nextLineId, oi.item_id, itm.name, oi.quantity⟩])
          (by
            intro j hj
            have := hpre (j + 1) (by omega)
            rwa [show k0 + (j + 1) = k0 + 1 + j by omega] at this)
          (by rwa [show k0 + 1 + k = k0 + (k + 1) by omega])
          (by simpa using hk)
          (fun oi' hoi' => hcov oi' (List.mem_cons_of_mem oi hoi'))
          (by
            intro oi' hoi'
            rw [selectInv_updateStock]
            simp only [selectInv_set_order_items, ne_eq, List.map_eq_nil_iff]
            exact hne oi' (List.mem_cons_of_mem oi hoi'))
        obtain ⟨d, s2, evs2, heq, hd, horders, hinv⟩ := hrec
        refine ⟨d, s2, evs2, ?_, hd, ?_, ?_⟩
        · simp only [commitLines, h0.1, h0.2, Bool.false_eq_true, ite_false, hc, hie,
            Bool.false_or, if_false]
          exact heq
        · rw [horders]
          rfl
        · rw [hinv]
          simp [updateStockLevel, List.take_succ_cons, decrementsApplied,
            List.foldl_cons, applyLineStock, hc]

theorem stockView_id (cache : List (String × InvItem)) (items : List OrderItemCreate)
    (it : InvItem) : (stockView cache items it).id = it.id := by
  unfold stockView
  cases lastHit cache it.id items <;> rfl

theorem stockView_name (cache : List (String × InvItem)) (items : List OrderItemCreate)
    (it : InvItem) : (stockView cache items it).name = it.name := by
  unfold stockView
  cases lastHit cache it.id items <;> rfl

theorem lastHit_nil (cache : List (String × InvItem)) (iid : String) :
    lastHit cache iid [] = none := rfl

theorem lastHit_cons (cache : List (String × InvItem)) (iid : String)
    (oi : OrderItemCreate) (rest : List OrderItemCreate) :
    lastHit cache iid (oi :: rest) =
      match lastHit cache iid rest with
      | some lvl => some lvl
      | none =>
        if oi.item_id == iid then
          (cacheLookup cache oi.item_id).map
            (fun itm => itm.stock_level - (oi.quantity : Int))
        else none := rfl

theorem stockView_nil (cache : List (String × InvItem)) (it : InvItem) :
    stockView cache [] it = it := rfl

theorem decrementsApplied_eq_map (cache : List (String × InvItem)) :
    ∀ (items : List OrderItemCreate) (inv : List InvItem),
      decrementsApplied cache items inv = inv.map (stockView cache items) := by
  intro items
  induction items with
  | nil =>
    intro inv
    have h : inv.map (stockView cache []) = inv.map id :=
      List.map_congr_left (fun it _ => stockView_nil cache it)
    simp only [decrementsApplied, List.foldl_nil, h, List.map_id]
  | cons oi rest ih =>
    intro inv
    have hstep : decrementsApplied cache (oi :: rest) inv =
        decrementsApplied cache rest (applyLineStock cache oi inv) := by
      simp [decrementsApplied, List.foldl_cons]
    rw [hstep, ih]
    cases hc : cacheLookup cache oi.item_id with
    | none =>
      have ha : applyLineStock cache oi inv = inv := by
        unfold applyLineStock
        rw [hc]
      rw [ha]
      apply List.map_congr_left
      intro it _
      unfold stockView
      rw [lastHit_cons]
      cases hr : lastHit cache it.id rest with
      | some lvl => simp
      | none => simp [hc]
    | some itm =>
      have ha : applyLineStock cache oi inv = inv.map (fun it =>
          if it.id == oi.item_id then
            { it with stock_level := itm.stock_level - (oi.quantity : Int) }
          else it) := by
        unfold applyLineStock
        rw [hc]
      rw [ha, List.map_map]
      apply List.map_congr_left
      intro it _
      simp only [Function.comp]
      by_cases heq : oi.item_id = it.id
      · have h1 : (it.id == oi.item_id) = true := by simp [heq]
        simp only [h1, ite_true]
        unfold stockView
        rw [lastHit_cons]
        cases hr : lastHit cache it.id rest with
        | some lvl => simp [hr]
        | none =>
          have hc' : cacheLookup cache it.id = some itm := heq ▸ hc
          simp [hr, heq, hc']
      · have h1 : (it.id == oi.item_id) = false := by
          simp only [beq_eq_false_iff_ne, ne_eq]
          exact fun h => heq h.symm
        simp only [h1, Bool.false_eq_true, if_false]
        unfold stockView
        rw [lastHit_cons]
        cases hr : lastHit cache it.id rest with
        | some lvl => simp [hr]
        | none => simp [hr, heq]

theorem lastHit_eq_lastQty (cache : List (String × InvItem)) (iid : String)
    (itm : InvItem) (hc : cacheLookup cache iid = some itm) :
    ∀ items, lastHit cache iid items =
      (lastQtyFor iid items).map (fun q => itm.stock_level - (q : Int)) := by
  intro items
  induction items with
  | nil => rfl
  | cons oi rest ih =>
    unfold lastHit lastQtyFor
    rw [ih]
    cases hq : lastQtyFor iid rest with
    | some q => simp
    | none =>
      by_cases h : (oi.item_id == iid) = true
      · have heq : oi.item_id = iid := by simpa using h
        simp [h, heq, hc]
      · simp [h]

theorem select_ne_nil_of_not_unsat (s : Store) (oi : OrderItemCreate)
    (h : lineUnsat s oi = false) : selectInvById s oi.item_id ≠ [] := by
  unfold lineUnsat at h
  cases hsel : selectInvById s oi.item_id with
  | nil => rw [hsel] at h; simp at h
  | cons a t => exact List.cons_ne_nil a t

theorem selectInv_set_orders (s : Store) (os : List OrderRec) (n : Nat) (iid : String) :
    selectInvById { s with orders := os, nextOrderId := n } iid =
      selectInvById s iid := rfl

/-- The full success path of `create_order`: aggregate validation passes and
every remote write succeeds.  The result, final store and write trace are
determined exactly. -/
theorem create_order_success_eq (fs : FailSpec) (uid : String) (od : OrderCreate)
    (s : Store)
    (hv : (validateItems s od.items).1 = [])
    (hh : fs.headerFails = false)
    (hfl : ∀ j, fs.lineFails j = false) (hfs : ∀ j, fs.stockFails j = false) :
    create_order fs uid od s =
      (.ok ⟨s.nextOrderId, od.customer_name, .pending,
            mkLineResponses (validateItems s od.items).2 s.nextLineId od.items, uid⟩,
       { s with
          inventory_items :=
            decrementsApplied (validateItems s od.items).2 od.items s.inventory_items,
          orders := s.orders ++ [⟨s.nextOrderId, od.customer_name, .pending, uid⟩],
          order_items :=
            s.order_items ++ mkLineRows s.nextOrderId s.nextLineId od.items,
          nextOrderId := s.nextOrderId + 1,
          nextLineId := s.nextLineId + od.items.length },
       .insertHeader s.nextOrderId ::
         expectedTrace (validateItems s od.items).2 s.nextOrderId s.nextLineId od.items) := by
  have hcov := validateItems_covers s od.items hv
  unfold create_order
  simp only [hv, hh, List.isEmpty_nil, ite_true, Bool.false_eq_true, ite_false, if_false]
  rw [commitLines_success fs (validateItems s od.items).2 s.nextOrderId hfl hfs
    od.items 0
    { s with orders := s.orders ++ [⟨s.nextOrderId, od.customer_name, .pending, uid⟩],
             nextOrderId := s.nextOrderId + 1 }
    [.insertHeader s.nextOrderId] []
    (fun oi hoi => (hcov oi hoi).1)
    (by
      intro oi hoi
      rw [selectInv_set_orders]
      exact select_ne_nil_of_not_unsat s oi (hcov oi hoi).2)]
  simp

theorem filter_map_id_pres (f : InvItem → InvItem) (hf : ∀ it, (f it).id = it.id)
    (l : List InvItem) (iid : String) :
    (l.map f).filter (fun it => it.id == iid) =
      (l.filter (fun it => it.id == iid)).map f := by
  rw [List.filter_map]
  congr 1
  apply List.filter_congr
  intro it _
  simp [Function.comp, hf]

/-- After the commit loop, any item select returns the pre-creation rows
passed through the stock-view transformation. -/
theorem selectInv_final (s sF : Store) (cache : List (String × InvItem))
    (items0 : List OrderItemCreate)
    (hinv : sF.inventory_items = decrementsApplied cache items0 s.inventory_items)
    (iid : String) :
    selectInvById sF iid = (selectInvById s iid).map (stockView cache items0) := by
  unfold selectInvById
  rw [hinv, decrementsApplied_eq_map]
  exact filter_map_id_pres _ (stockView_id cache items0) _ iid

theorem cacheLookup_head (s : Store) (cache : List (String × InvItem))
    (hfa : cacheFaithful s cache) (iid : String) (itm : InvItem)
    (hc : cacheLookup cache iid = some itm) :
    (selectInvById s iid).head? = some itm := by
  unfold cacheLookup at hc
  cases hf : cache.find? (fun p => p.1 == iid) with
  | none => rw [hf] at hc; simp at hc
  | some p =>
    rw [hf] at hc
    simp at hc
    have hmem := List.mem_of_find?_eq_some hf
    have hpred := List.find?_some hf
    have hpid : p.1 = iid := by simpa using hpred
    rw [← hpid, hfa p hmem, hc]

theorem mkLineRows_mem_order_id (oid : Nat) :
    ∀ (items : List OrderItemCreate) (lid : Nat),
      ∀ r ∈ mkLineRows oid lid items, r.order_id = oid := by
  intro items
  induction items with
  | nil => intro lid r hr; simp [mkLineRows] at hr
  | cons oi rest ih =>
    intro lid r hr
    rcases List.mem_cons.mp hr with rfl | hr
    · rfl
    · exact ih (lid + 1) r hr

/-- Joining the freshly inserted rows back against the post-commit inventory
reproduces the response entries built during the commit, because only stock
levels (never ids or names) were rewritten. -/
theorem joinRows_mkLineRows (s sF : Store) (cache : List (String × InvItem))
    (items0 : List OrderItemCreate) (oid : Nat)
    (hsel : ∀ iid, selectInvById sF iid =
      (selectInvById s iid).map (stockView cache items0))
    (hfa : cacheFaithful s cache) :
    ∀ (items : List OrderItemCreate) (lid : Nat),
      (∀ oi ∈ items, (cacheLookup cache oi.item_id).isSome) →
      joinRows sF (mkLineRows oid lid items) =
        some (mkLineResponses cache lid items) := by
  intro items
  induction items with
  | nil => intro lid _; rfl
  | cons oi rest ih =>
    intro lid hcov
    cases hc : cacheLookup cache oi.item_id with
    | none =>
      exfalso
      have := hcov oi (List.mem_cons_self oi rest)
      rw [hc] at this
      simp at this
    | some itm =>
      have hhead := cacheLookup_head s cache hfa oi.item_id itm hc
      cases hsel0 : selectInvById s oi.item_id with
      | nil => rw [hsel0] at hhead; simp at hhead
      | cons a t =>
        rw [hsel0] at hhead
        simp only [List.head?_cons, Option.some_inj] at hhead
        have hselF : selectInvById sF oi.item_id =
            stockView cache items0 a :: t.map (stockView cache items0) := by
          rw [hsel, hsel0]
          rfl
        simp only [mkLineRows, joinRows, hselF,
          ih (lid + 1) (fun oi' hoi' => hcov oi' (List.mem_cons_of_mem oi hoi'))]
        simp only [mkLineResponses, hc]
        rw [← hhead, stockView_name]

/-- Changing only the `orders` table (and the id counters) of a store does
not affect the line re-read join. -/
theorem joinOrderLines_congr (s t : Store) (oid : Nat)
    (h1 : t.order_items = s.order_items) (h2 : t.inventory_items = s.inventory_items) :
    joinOrderLines t oid = joinOrderLines s oid := by
  have hl : selectLinesByOrder t oid = selectLinesByOrder s oid := by
    unfold selectLinesByOrder
    rw [h1]
  have hj : ∀ rows, joinRows t rows = joinRows s rows := by
    intro rows
    induction rows with
    | nil => rfl
    | cons l rest ih =>
      have hs : selectInvById t l.item_id = selectInvById s l.item_id := by
        unfold selectInvById
        rw [h2]
      simp only [joinRows, hs, ih]
  unfold joinOrderLines
  rw [hl, hj]

theorem create_order_reject_eq (fs : FailSpec) (uid : String) (od : OrderCreate)
    (s : Store) (hne : (validateItems s od.items).1 ≠ []) :
    create_order fs uid od s =
      (.insufficientStock (validateItems s od.items).1, s, []) := by
  unfold create_order
  have h := isEmpty_eq_false_of_ne_nil _ hne
  simp [h]

theorem lineOverStock_imp_unsat (s : Store) (oi : OrderItemCreate)
    (h : lineOverStock s oi = true) : lineUnsat s oi = true := by
  unfold lineOverStock at h
  unfold lineUnsat
  cases hsel : selectInvById s oi.item_id with
  | nil => rfl
  | cons a t => rw [hsel] at h; exact h

/-- When validation passes, every dict entry covers its line's quantity. -/
theorem covers_bound (s : Store) (items : List OrderItemCreate)
    (hv : (validateItems s items).1 = []) :
    ∀ oi ∈ items, ∀ itm,
      cacheLookup (validateItems s items).2 oi.item_id = some itm →
      (oi.quantity : Int) ≤ itm.stock_level := by
  intro oi hoi itm hc
  have hfa := validateItems_faithful s items
  have hhead := cacheLookup_head s _ hfa _ _ hc
  have hun := (validateItems_covers s items hv oi hoi).2
  unfold lineUnsat at hun
  cases hsel : selectInvById s oi.item_id with
  | nil => rw [hsel] at hun; simp at hun
  | cons a t =>
    rw [hsel] at hun hhead
    simp only [List.head?_cons, Option.some_inj] at hhead
    simp at hun
    rw [← hhead]
    exact hun

/-- Core safety of every `create_order` run: stock levels stay non-negative
and every stock write in the trace is non-negative. -/
theorem create_order_nonneg_all (fs : FailSpec) (uid : String) (od : OrderCreate)
    (s : Store) (h0 : storeStockNonneg s) :
    storeStockNonneg (create_order fs uid od s).2.1 ∧
    ∀ ev ∈ (create_order fs uid od s).2.2, evNonneg ev := by
  by_cases hv : (validateItems s od.items).1 = []
  · unfold create_order
    simp only [hv, List.isEmpty_nil, ite_true]
    by_cases hh : fs.headerFails = true
    · simp only [hh, ite_true]
      exact ⟨h0, by intro ev hev; simp at hev⟩
    · simp only [hh, Bool.not_eq_true, ite_false, Bool.false_eq_true, if_false]
      have key := commitLines_nonneg fs (validateItems s od.items).2 s.nextOrderId
        od.items 0
        { s with orders := s.orders ++ [⟨s.nextOrderId, od.customer_name, .pending, uid⟩],
                 nextOrderId := s.nextOrderId + 1 }
        [.insertHeader s.nextOrderId] []
        h0 (covers_bound s od.items hv)
        (by intro ev hev; simp at hev; subst hev; trivial)
      cases hres : commitLines fs (validateItems s od.items).2 s.nextOrderId od.items 0
        { s with orders := s.orders ++ [⟨s.nextOrderId, od.customer_name, .pending, uid⟩],
                 nextOrderId := s.nextOrderId + 1 }
        [.insertHeader s.nextOrderId] [] with
      | failed d s2 evs =>
        rw [hres] at key
        exact key
      | done s2 evs resps =>
        rw [hres] at key
        exact key
  · rw [create_order_reject_eq fs uid od s hv]
    exact ⟨h0, by intro ev hev; simp at hev⟩

/-- C1: committed stock levels never go negative, and a request containing a
line whose quantity exceeds that item's available stock is rejected as a
whole with the store (hence every stock_level) unchanged. -/
theorem c1_stock_invariant (fs : FailSpec) (uid : String) (od : OrderCreate)
    (s : Store) (h0 : storeStockNonneg s) :
    storeStockNonneg (create_order fs uid od s).2.1 ∧
    ((∃ oi ∈ od.items, lineOverStock s oi = true) →
      (∃ details, (create_order fs uid od s).1 = .insufficientStock details) ∧
      (create_order fs uid od s).2.1 = s) := by
  refine ⟨(create_order_nonneg_all fs uid od s h0).1, ?_⟩
  intro hex
  obtain ⟨oi, hoi, hov⟩ := hex
  have hu := lineOverStock_imp_unsat s oi hov
  have hne : (validateItems s od.items).1 ≠ [] := by
    rw [validateItems_errors]
    exact List.ne_nil_of_mem
      (List.mem_map_of_mem (lineErrMsg s) (List.mem_filter.mpr ⟨hoi, hu⟩))
  rw [create_order_reject_eq fs uid od s hne]
  exact ⟨⟨(validateItems s od.items).1, rfl⟩, rfl⟩

theorem c1_stock_invariant_witness :
    storeStockNonneg storeAB ∧
    (∃ oi ∈ (⟨"c", [⟨"A", 7⟩]⟩ : OrderCreate).items, lineOverStock storeAB oi = true) ∧
    storeStockNonneg (create_order noFail "u" ⟨"c", [⟨"A", 7⟩]⟩ storeAB).2.1 ∧
    (∃ details, (create_order noFail "u" ⟨"c", [⟨"A", 7⟩]⟩ storeAB).1 =
      .insufficientStock details) ∧
    (create_order noFail "u" ⟨"c", [⟨"A", 7⟩]⟩ storeAB).2.1 = storeAB := by
  have h0 : storeStockNonneg storeAB := by unfold storeStockNonneg; decide
  have hex : ∃ oi ∈ (⟨"c", [⟨"A", 7⟩]⟩ : OrderCreate).items,
      lineOverStock storeAB oi = true := by decide
  have h := c1_stock_invariant noFail "u" ⟨"c", [⟨"A", 7⟩]⟩ storeAB h0
  exact ⟨h0, hex, h.1, (h.2 hex).1, (h.2 hex).2⟩

/-- C2: a request with at least one unsatisfiable line is rejected before
any write, with exactly one aggregated error entry per unsatisfiable line
(in request order, none for satisfiable lines) and the store unchanged. -/
theorem c2_aggregated_rejection (fs : FailSpec) (uid : String) (od : OrderCreate)
    (s : Store) (h : ∃ oi ∈ od.items, lineUnsat s oi = true) :
    create_order fs uid od s =
      (.insufficientStock
        ((od.items.filter (fun oi => lineUnsat s oi)).map (lineErrMsg s)), s, []) := by
  obtain ⟨oi, hoi, hu⟩ := h
  have hne : (validateItems s od.items).1 ≠ [] := by
    rw [validateItems_errors]
    exact List.ne_nil_of_mem
      (List.mem_map_of_mem (lineErrMsg s) (List.mem_filter.mpr ⟨hoi, hu⟩))
  rw [create_order_reject_eq fs uid od s hne, validateItems_errors]

theorem c2_aggregated_rejection_witness :
    (∃ oi ∈ (⟨"c", [⟨"A", 3⟩, ⟨"C", 10⟩]⟩ : OrderCreate).items,
      lineUnsat storeAB oi = true) ∧
    create_order noFail "u" ⟨"c", [⟨"A", 3⟩, ⟨"C", 10⟩]⟩ storeAB =
      (.insufficientStock ["Inventory item C not found"], storeAB, []) := by
  have h : ∃ oi ∈ (⟨"c", [⟨"A", 3⟩, ⟨"C", 10⟩]⟩ : OrderCreate).items,
      lineUnsat storeAB oi = true := by decide
  refine ⟨h, ?_⟩
  rw [c2_aggregated_rejection noFail "u" ⟨"c", [⟨"A", 3⟩, ⟨"C", 10⟩]⟩ storeAB h]
  decide

/-- C6 (counterexample): with item A at stock 5 and an order of two A:3
lines, the second stock write's delta relative to the then-stored level 2
would drive stock below zero (2 − 3 < 0), yet the operation does not fail
with InsufficientStock — it succeeds and overwrites the stock (to 2, the
pre-validation level minus only the second quantity). -/
theorem c6_counterexample :
    (create_order noFail "u" ⟨"c", [⟨"A", 3⟩, ⟨"A", 3⟩]⟩
        ⟨[⟨"A", "Widget", 5⟩], [], [], 1, 1⟩).1 =
      .ok ⟨1, "c", .pending, [⟨1, "A", "Widget", 3⟩, ⟨2, "A", "Widget", 3⟩], "u"⟩ ∧
    (create_order noFail "u" ⟨"c", [⟨"A", 3⟩, ⟨"A", 3⟩]⟩
        ⟨[⟨"A", "Widget", 5⟩], [], [], 1, 1⟩).2.1.inventory_items =
      [⟨"A", "Widget", 2⟩] ∧
    (create_order noFail "u" ⟨"c", [⟨"A", 3⟩, ⟨"A", 3⟩]⟩
        ⟨[⟨"A", "Widget", 5⟩], [], [], 1, 1⟩).2.2 =
      [.insertHeader 1, .insertLine 1 1 "A" 3, .updateStock "A" 2,
       .insertLine 2 1 "A" 3, .updateStock "A" 2] ∧
    ((2 : Int) - 3 < 0) := by
  refine ⟨?_, ?_, ?_, by decide⟩ <;> decide

/-- C6 (amended): a commit-phase stock write never stores a negative level,
because it stores the pre-validation stock minus only the current line's
quantity, which validation made non-negative; there is no write-time
re-check, and once validation passes the operation never fails with
InsufficientStock. -/
theorem c6_stock_writes_nonneg (fs : FailSpec) (uid : String) (od : OrderCreate)
    (s : Store) (h0 : storeStockNonneg s) :
    (∀ iid lvl, WriteEvent.updateStock iid lvl ∈ (create_order fs uid od s).2.2 →
      0 ≤ lvl) ∧
    ((validateItems s od.items).1 = [] →
      ∀ d, (create_order fs uid od s).1 ≠ .insufficientStock d) := by
  constructor
  · intro iid lvl hmem
    exact (create_order_nonneg_all fs uid od s h0).2 _ hmem
  · intro hv d
    unfold create_order
    simp only [hv, List.isEmpty_nil, ite_true]
    by_cases hh : fs.headerFails = true
    · simp [hh]
    · simp only [hh, Bool.not_eq_true, ite_false, Bool.false_eq_true, if_false]
      cases commitLines fs (validateItems s od.items).2 s.nextOrderId od.items 0
        { s with orders := s.orders ++ [⟨s.nextOrderId, od.customer_name, .pending, uid⟩],
                 nextOrderId := s.nextOrderId + 1 }
        [.insertHeader s.nextOrderId] [] with
      | failed d2 s2 evs => simp
      | done s2 evs resps => simp

theorem c6_stock_writes_nonneg_witness :
    storeStockNonneg storeAB ∧
    (∀ iid lvl,
      WriteEvent.updateStock iid lvl ∈
        (create_order noFail "u" ⟨"c", [⟨"A", 3⟩]⟩ storeAB).2.2 → 0 ≤ lvl) ∧
    ((validateItems storeAB [⟨"A", 3⟩]).1 = [] →
      ∀ d, (create_order noFail "u" ⟨"c", [⟨"A", 3⟩]⟩ storeAB).1 ≠
        .insufficientStock d) := by
  have h0 : storeStockNonneg storeAB := by unfold storeStockNonneg; decide
  have h := c6_stock_writes_nonneg noFail "u" ⟨"c", [⟨"A", 3⟩]⟩ storeAB h0
  exact ⟨h0, h.1, h.2⟩

/-- C3: when pre-validation passed and the commit phase first fails at line
`k` (line insert or stock update), the operation returns a 500 persistence
error, the order header is deleted so the order is not retrievable, and the
stock decrements of the `k` earlier lines are left applied (not reversed). -/
theorem c3_compensation (fs : FailSpec) (uid : String) (od : OrderCreate) (s : Store)
    (hv : (validateItems s od.items).1 = [])
    (hh : fs.headerFails = false)
    (k : Nat) (hk : k < od.items.length)
    (hpre : ∀ j < k, fs.lineFails j = false ∧ fs.stockFails j = false)
    (hfail : fs.lineFails k = true ∨ fs.stockFails k = true) :
    ∃ d, (create_order fs uid od s).1 = .serverError d ∧
      (d = "Failed to create order items" ∨
        d = "Failed to update inventory stock levels") ∧
      get_order_details (create_order fs uid od s).2.1 s.nextOrderId = .notFound ∧
      (create_order fs uid od s).2.1.inventory_items =
        decrementsApplied (validateItems s od.items).2 (od.items.take k)
          s.inventory_items := by
  have hcov := validateItems_covers s od.items hv
  obtain ⟨d, s2, evs2, heq, hd, horders, hinv⟩ :=
    commitLines_first_fail fs (validateItems s od.items).2 s.nextOrderId k od.items 0
      { s with orders := s.orders ++ [⟨s.nextOrderId, od.customer_name, .pending, uid⟩],
               nextOrderId := s.nextOrderId + 1 }
      [.insertHeader s.nextOrderId] []
      (by intro j hj; simpa using hpre j hj)
      (by simpa using hfail)
      hk
      (fun oi hoi => (hcov oi hoi).1)
      (by
        intro oi hoi
        rw [selectInv_set_orders]
        exact select_ne_nil_of_not_unsat s oi (hcov oi hoi).2)
  unfold create_order
  simp only [hv, List.isEmpty_nil, ite_true, hh, Bool.false_eq_true, ite_false, if_false]
  rw [heq]
  refine ⟨d, rfl, hd, ?_, ?_⟩
  · have hsel2 : selectOrderById s2 s.nextOrderId = [] := by
      unfold selectOrderById
      rw [horders]
      exact filter_not_filter_eq_nil _ _
    unfold get_order_details
    rw [hsel2]
  · rw [hinv]

theorem c3_compensation_witness :
    (validateItems storeAB [⟨"A", 3⟩, ⟨"B", 1⟩]).1 = [] ∧
    (∃ d, (create_order (failStockAt 1) "u" ⟨"c", [⟨"A", 3⟩, ⟨"B", 1⟩]⟩ storeAB).1 =
      .serverError d) ∧
    get_order_details
      (create_order (failStockAt 1) "u" ⟨"c", [⟨"A", 3⟩, ⟨"B", 1⟩]⟩ storeAB).2.1 1 =
      .notFound ∧
    (create_order (failStockAt 1) "u" ⟨"c", [⟨"A", 3⟩, ⟨"B", 1⟩]⟩ storeAB).2.1.inventory_items =
      [⟨"A", "Widget", 2⟩, ⟨"B", "Board", 2⟩] := by
  obtain ⟨d, h1, h2, h3, h4⟩ :=
    c3_compensation (failStockAt 1) "u" ⟨"c", [⟨"A", 3⟩, ⟨"B", 1⟩]⟩ storeAB
      (by decide) rfl 1 (by decide)
      (by
        intro j hj
        have : j = 0 := by omega
        subst this
        exact ⟨rfl, rfl⟩)
      (Or.inr rfl)
  refine ⟨by decide, ⟨d, h1⟩, h3, ?_⟩
  rw [h4]
  decide

/-- One response entry per request line when every line has a dict entry. -/
theorem mkLineResponses_item_qty (cache : List (String × InvItem)) :
    ∀ (items : List OrderItemCreate) (lid : Nat),
      (∀ oi ∈ items, (cacheLookup cache oi.item_id).isSome) →
      (mkLineResponses cache lid items).map (fun r => (r.item_id, r.quantity)) =
        items.map (fun oi => (oi.item_id, oi.quantity)) := by
  intro items
  induction items with
  | nil => intro lid _; rfl
  | cons oi rest ih =>
    intro lid hcov
    cases hc : cacheLookup cache oi.item_id with
    | none =>
      exfalso
      have := hcov oi (List.mem_cons_self oi rest)
      rw [hc] at this
      simp at this
    | some itm =>
      simp only [mkLineResponses, hc, List.map_cons]
      rw [ih (lid + 1) (fun oi' hoi' => hcov oi' (List.mem_cons_of_mem oi hoi'))]

/-- C4: on a fully successful request the header is written first (status
pending), then for each line in request order the line insert is immediately
followed by that line's stock write, and the returned order carries one
entry per submitted line with the submitted item ids and quantities. -/
theorem c4_commit_sequence (fs : FailSpec) (uid : String) (od : OrderCreate)
    (s : Store)
    (hv : (validateItems s od.items).1 = [])
    (hh : fs.headerFails = false)
    (hfl : ∀ j, fs.lineFails j = false) (hfs : ∀ j, fs.stockFails j = false) :
    create_order fs uid od s =
      (.ok ⟨s.nextOrderId, od.customer_name, .pending,
            mkLineResponses (validateItems s od.items).2 s.nextLineId od.items, uid⟩,
       { s with
          inventory_items :=
            decrementsApplied (validateItems s od.items).2 od.items s.inventory_items,
          orders := s.orders ++ [⟨s.nextOrderId, od.customer_name, .pending, uid⟩],
          order_items :=
            s.order_items ++ mkLineRows s.nextOrderId s.nextLineId od.items,
          nextOrderId := s.nextOrderId + 1,
          nextLineId := s.nextLineId + od.items.length },
       .insertHeader s.nextOrderId ::
         expectedTrace (validateItems s od.items).2 s.nextOrderId s.nextLineId od.items) ∧
    (mkLineResponses (validateItems s od.items).2 s.nextLineId od.items).map
        (fun r => (r.item_id, r.quantity)) =
      od.items.map (fun oi => (oi.item_id, oi.quantity)) := by
  refine ⟨create_order_success_eq fs uid od s hv hh hfl hfs, ?_⟩
  exact mkLineResponses_item_qty (validateItems s od.items).2 od.items s.nextLineId
    (fun oi hoi => (validateItems_covers s od.items hv oi hoi).1)

theorem c4_commit_sequence_witness :
    (validateItems storeAB [⟨"A", 3⟩, ⟨"B", 1⟩]).1 = [] ∧
    create_order noFail "u" ⟨"c", [⟨"A", 3⟩, ⟨"B", 1⟩]⟩ storeAB =
      (.ok ⟨1, "c", .pending, [⟨1, "A", "Widget", 3⟩, ⟨2, "B", "Board", 1⟩], "u"⟩,
       ⟨[⟨"A", "Widget", 2⟩, ⟨"B", "Board", 1⟩],
        [⟨1, "c", .pending, "u"⟩],
        [⟨1, 1, "A", 3⟩, ⟨2, 1, "B", 1⟩], 2, 3⟩,
       [.insertHeader 1, .insertLine 1 1 "A" 3, .updateStock "A" 2,
        .insertLine 2 1 "B" 1, .updateStock "B" 1]) := by
  have h := (c4_commit_sequence noFail "u" ⟨"c", [⟨"A", 3⟩, ⟨"B", 1⟩]⟩ storeAB
    (by decide) rfl (fun _ => rfl) (fun _ => rfl)).1
  refine ⟨by decide, ?_⟩
  rw [h]
  decide

theorem mkLineResponses_names (s : Store) (cache : List (String × InvItem))
    (hfa : cacheFaithful s cache) :
    ∀ (items : List OrderItemCreate) (lid : Nat),
      ∀ r ∈ mkLineResponses cache lid items,
        (selectInvById s r.item_id).head?.map (fun it => it.name) =
          some r.item_name := by
  intro items
  induction items with
  | nil => intro lid r hr; simp [mkLineResponses] at hr
  | cons oi rest ih =>
    intro lid r hr
    cases hc : cacheLookup cache oi.item_id with
    | none =>
      simp only [mkLineResponses, hc] at hr
      simp at hr
    | some itm =>
      simp only [mkLineResponses, hc] at hr
      rcases List.mem_cons.mp hr with rfl | hr

      · have hh := cacheLookup_head s cache hfa oi.item_id itm hc
        simp [hh]
      · exact ih (lid + 1) r hr

/-- Reading an order straight after a fully successful creation (no
intervening inventory mutation) reproduces the creation response: the
header and, line by line, the submitted rows joined to names that the stock
writes did not touch. -/
theorem get_after_create (s : Store) (cache : List (String × InvItem))
    (items : List OrderItemCreate) (oid lid : Nat) (cust uidv : String)
    (hfresh_o : ∀ o ∈ s.orders, o.id ≠ oid)
    (hfresh_l : ∀ l ∈ s.order_items, l.order_id ≠ oid)
    (hfa : cacheFaithful s cache)
    (hcov : ∀ oi ∈ items, (cacheLookup cache oi.item_id).isSome) :
    get_order_details
      { s with
        inventory_items := decrementsApplied cache items s.inventory_items,
        orders := s.orders ++ [⟨oid, cust, .pending, uidv⟩],
        order_items := s.order_items ++ mkLineRows oid lid items,
        nextOrderId := oid + 1,
        nextLineId := lid + items.length } oid =
      .ok ⟨oid, cust, .pending, mkLineResponses cache lid items, uidv⟩ := by
  have hselo : selectOrderById
      { s with
        inventory_items := decrementsApplied cache items s.inventory_items,
        orders := s.orders ++ [⟨oid, cust, .pending, uidv⟩],
        order_items := s.order_items ++ mkLineRows oid lid items,
        nextOrderId := oid + 1,
        nextLineId := lid + items.length } oid =
      [⟨oid, cust, .pending, uidv⟩] := by
    unfold selectOrderById
    show (s.orders ++ [(⟨oid, cust, .pending, uidv⟩ : OrderRec)]).filter
        (fun o => o.id == oid) = _
    rw [List.filter_append]
    have h1 : s.orders.filter (fun o => o.id == oid) = [] :=
      List.filter_eq_nil_iff.mpr (fun o ho => by simp [hfresh_o o ho])
    rw [h1]
    simp
  have hsell : selectLinesByOrder
      { s with
        inventory_items := decrementsApplied cache items s.inventory_items,
        orders := s.orders ++ [⟨oid, cust, .pending, uidv⟩],
        order_items := s.order_items ++ mkLineRows oid lid items,
        nextOrderId := oid + 1,
        nextLineId := lid + items.length } oid = mkLineRows oid lid items := by
    unfold selectLinesByOrder
    show (s.order_items ++ mkLineRows oid lid items).filter
        (fun l => l.order_id == oid) = _
    rw [List.filter_append]
    have h1 : s.order_items.filter (fun l => l.order_id == oid) = [] :=
      List.filter_eq_nil_iff.mpr (fun l hl => by simp [hfresh_l l hl])
    have h2 : (mkLineRows oid lid items).filter (fun l => l.order_id == oid) =
        mkLineRows oid lid items :=
      List.filter_eq_self.mpr
        (fun r hr => by simp [mkLineRows_mem_order_id oid items lid r hr])
    rw [h1, h2]
    rfl
  have hjoin : joinOrderLines
      { s with
        inventory_items := decrementsApplied cache items s.inventory_items,
        orders := s.orders ++ [⟨oid, cust, .pending, uidv⟩],
        order_items := s.order_items ++ mkLineRows oid lid items,
        nextOrderId := oid + 1,
        nextLineId := lid + items.length } oid =
      some (mkLineResponses cache lid items) := by
    unfold joinOrderLines
    rw [hsell]
    exact joinRows_mkLineRows s _ cache items oid
      (fun iid => selectInv_final s _ cache items rfl iid) hfa items lid hcov
  unfold get_order_details
  rw [hselo, hjoin]

/-- C5 (amended): reading an order immediately after a successful creation
returns its lines in the exact submitted order with the exact submitted
quantities and with the names the inventory rows had at creation time; the
name is not stored on the order line, however — it is re-read through a join
at read time, so it tracks later renames (see the counterexample). -/
theorem c5_readback (fs : FailSpec) (uid : String) (od : OrderCreate) (s : Store)
    (hv : (validateItems s od.items).1 = [])
    (hh : fs.headerFails = false)
    (hfl : ∀ j, fs.lineFails j = false) (hfs : ∀ j, fs.stockFails j = false)
    (hfresh_o : ∀ o ∈ s.orders, o.id ≠ s.nextOrderId)
    (hfresh_l : ∀ l ∈ s.order_items, l.order_id ≠ s.nextOrderId) :
    get_order_details (create_order fs uid od s).2.1 s.nextOrderId =
      .ok ⟨s.nextOrderId, od.customer_name, .pending,
           mkLineResponses (validateItems s od.items).2 s.nextLineId od.items, uid⟩ ∧
    (mkLineResponses (validateItems s od.items).2 s.nextLineId od.items).map
        (fun r => (r.item_id, r.quantity)) =
      od.items.map (fun oi => (oi.item_id, oi.quantity)) ∧
    ∀ r ∈ mkLineResponses (validateItems s od.items).2 s.nextLineId od.items,
      (selectInvById s r.item_id).head?.map (fun it => it.name) =
        some r.item_name := by
  have hcov := validateItems_covers s od.items hv
  have hfa := validateItems_faithful s od.items
  refine ⟨?_,
    mkLineResponses_item_qty _ _ _ (fun oi hoi => (hcov oi hoi).1),
    mkLineResponses_names s _ hfa od.items s.nextLineId⟩
  rw [create_order_success_eq fs uid od s hv hh hfl hfs]
  exact get_after_create s _ od.items s.nextOrderId s.nextLineId od.customer_name uid
    hfresh_o hfresh_l hfa (fun oi hoi => (hcov oi hoi).1)

theorem c5_readback_witness :
    (validateItems storeAB reqAB.items).1 = [] ∧
    get_order_details (create_order noFail "u" reqAB storeAB).2.1
        storeAB.nextOrderId =
      .ok ⟨1, "c", .pending, [⟨1, "A", "Widget", 3⟩, ⟨2, "B", "Board", 1⟩], "u"⟩ := by
  have hfo : ∀ o ∈ storeAB.orders, o.id ≠ storeAB.nextOrderId := by
    intro o ho
    simp [storeAB] at ho
  have hfl : ∀ l ∈ storeAB.order_items, l.order_id ≠ storeAB.nextOrderId := by
    intro l hl
    simp [storeAB] at hl
  have h := c5_readback noFail "u" reqAB storeAB
    (by decide) rfl (fun _ => rfl) (fun _ => rfl) hfo hfl
  refine ⟨by decide, ?_⟩
  rw [h.1]
  decide

/-- C5 (counterexample): the order line stores no name snapshot; after the
inventory item is renamed from Widget to Gadget, reading the order returns
the new name, so the read-back name is not "unaffected by any later
rename". -/
theorem c5_counterexample :
    (create_order noFail "u" ⟨"c", [⟨"A", 1⟩]⟩
        ⟨[⟨"A", "Widget", 5⟩], [], [], 1, 1⟩).1 =
      .ok ⟨1, "c", .pending, [⟨1, "A", "Widget", 1⟩], "u"⟩ ∧
    (rename_inventory_item
        (create_order noFail "u" ⟨"c", [⟨"A", 1⟩]⟩
          ⟨[⟨"A", "Widget", 5⟩], [], [], 1, 1⟩).2.1 "A" "Gadget").1 = .renamed ∧
    get_order_details
        (rename_inventory_item
          (create_order noFail "u" ⟨"c", [⟨"A", 1⟩]⟩
            ⟨[⟨"A", "Widget", 5⟩], [], [], 1, 1⟩).2.1 "A" "Gadget").2 1 =
      .ok ⟨1, "c", .pending, [⟨1, "A", "Gadget", 1⟩], "u"⟩ ∧
    ("Gadget" : String) ≠ "Widget" := by
  refine ⟨?_, ?_, ?_, by decide⟩ <;> decide

/-- C7: duplicate lines for one item are validated each against the same
full pre-validation stock level (quantities are never summed), each stock
write stores that level minus only its own line's quantity, and therefore a
successful creation leaves the item at the pre-read level minus the last
duplicate's quantity alone — even when the duplicates together exceed the
available stock. -/
theorem c7_duplicate_lines (fs : FailSpec) (uid : String) (od : OrderCreate)
    (s : Store)
    (hv : (validateItems s od.items).1 = [])
    (hh : fs.headerFails = false)
    (hfl : ∀ j, fs.lineFails j = false) (hfs : ∀ j, fs.stockFails j = false)
    (iid : String) (itm : InvItem) (q : Nat)
    (hc : cacheLookup (validateItems s od.items).2 iid = some itm)
    (hq : lastQtyFor iid od.items = some q) :
    ((validateItems s od.items).1 = [] ↔
      ∀ oi ∈ od.items, lineUnsat s oi = false) ∧
    (∃ resp, (create_order fs uid od s).1 = .ok resp) ∧
    (selectInvById (create_order fs uid od s).2.1 iid).head?.map
        (fun it => it.stock_level) =
      some (itm.stock_level - (q : Int)) := by
  have hfa := validateItems_faithful s od.items
  have hiff : (validateItems s od.items).1 = [] ↔
      ∀ oi ∈ od.items, lineUnsat s oi = false := by
    rw [validateItems_errors]
    constructor
    · intro h oi hoi
      have hfe : od.items.filter (fun oi => lineUnsat s oi) = [] :=
        List.map_eq_nil_iff.mp h
      cases hl : lineUnsat s oi with
      | false => rfl
      | true =>
        have : oi ∈ od.items.filter (fun oi => lineUnsat s oi) :=
          List.mem_filter.mpr ⟨hoi, hl⟩
        rw [hfe] at this
        simp at this
    · intro h
      have : od.items.filter (fun oi => lineUnsat s oi) = [] :=
        List.filter_eq_nil_iff.mpr (fun oi hoi => by rw [h oi hoi]; simp)
      rw [this]
      rfl
  have hhead := cacheLookup_head s _ hfa iid itm hc
  cases hsel0 : selectInvById s iid with
  | nil =>
    exfalso
    rw [hsel0] at hhead
    simp at hhead
  | cons a t =>
    rw [hsel0] at hhead
    simp only [List.head?_cons, Option.some_inj] at hhead
    subst hhead
    have hmem : a ∈ selectInvById s iid := by rw [hsel0]; exact List.mem_cons_self a t
    have hid : a.id = iid := by
      have := List.of_mem_filter (p := fun it : InvItem => it.id == iid) hmem
      simpa using this
    rw [create_order_success_eq fs uid od s hv hh hfl hfs]
    refine ⟨hiff, ⟨_, rfl⟩, ?_⟩
    have hselF : selectInvById
        { s with
          inventory_items :=
            decrementsApplied (validateItems s od.items).2 od.items s.inventory_items,
          orders := s.orders ++ [⟨s.nextOrderId, od.customer_name, .pending, uid⟩],
          order_items :=
            s.order_items ++ mkLineRows s.nextOrderId s.nextLineId od.items,
          nextOrderId := s.nextOrderId + 1,
          nextLineId := s.nextLineId + od.items.length } iid =
        (selectInvById s iid).map
          (stockView (validateItems s od.items).2 od.items) :=
      selectInv_final s _ _ od.items rfl iid
    rw [hselF, hsel0]
    simp only [List.map_cons, List.head?_cons, Option.map_some]
    unfold stockView
    rw [hid, lastHit_eq_lastQty (validateItems s od.items).2 iid a hc od.items, hq]
    simp

theorem c7_duplicate_lines_witness :
    (validateItems ⟨[⟨"A", "Widget", 5⟩], [], [], 1, 1⟩ [⟨"A", 3⟩, ⟨"A", 3⟩]).1 = [] ∧
    (∃ resp, (create_order noFail "u" ⟨"c", [⟨"A", 3⟩, ⟨"A", 3⟩]⟩
        ⟨[⟨"A", "Widget", 5⟩], [], [], 1, 1⟩).1 = .ok resp) ∧
    (selectInvById (create_order noFail "u" ⟨"c", [⟨"A", 3⟩, ⟨"A", 3⟩]⟩
        ⟨[⟨"A", "Widget", 5⟩], [], [], 1, 1⟩).2.1 "A").head?.map
        (fun it => it.stock_level) = some 2 ∧
    (3 + 3 > 5) := by
  have h := c7_duplicate_lines noFail "u" ⟨"c", [⟨"A", 3⟩, ⟨"A", 3⟩]⟩
    ⟨[⟨"A", "Widget", 5⟩], [], [], 1, 1⟩
    (by decide) rfl (fun _ => rfl) (fun _ => rfl)
    "A" ⟨"A", "Widget", 5⟩ 3 (by decide) (by decide)
  exact ⟨by decide, h.2.1, h.2.2, by decide⟩

/-- C8: a status transition on a non-existent order id fails with NotFound,
whatever the requested target status, and leaves the store unchanged. -/
theorem c8_transition_not_found (s : Store) (oid : Nat) (st : OrderStatus)
    (h : selectOrderById s oid = []) :
    update_order_status s oid st = (.notFound, s) := by
  unfold update_order_status
  rw [h]

theorem c8_transition_not_found_witness :
    selectOrderById storeAB 7 = [] ∧
    update_order_status storeAB 7 .pending = (.notFound, storeAB) ∧
    update_order_status storeAB 7 .processing = (.notFound, storeAB) ∧
    update_order_status storeAB 7 .fulfilled = (.notFound, storeAB) := by
  have h : selectOrderById storeAB 7 = [] := by decide
  exact ⟨h, c8_transition_not_found storeAB 7 .pending h,
    c8_transition_not_found storeAB 7 .processing h,
    c8_transition_not_found storeAB 7 .fulfilled h⟩

theorem filter_map_pres {α : Type} (f : α → α) (p : α → Bool)
    (hp : ∀ a, p (f a) = p a) (l : List α) :
    (l.map f).filter p = (l.filter p).map f := by
  rw [List.filter_map]
  congr 1
  apply List.filter_congr
  intro a _
  simp [Function.comp, hp]

/-- C9: on an existing order, any target status in
{pending, processing, fulfilled} is accepted whatever the current status,
the write is applied to the store, and the response carries the updated
header together with the freshly re-read lines. -/
theorem c9_transition_any_status (s : Store) (oid : Nat) (st : OrderStatus)
    (o : OrderRec) (t : List OrderRec) (h : selectOrderById s oid = o :: t)
    (L : List OrderItemResponse) (hj : joinOrderLines s oid = some L) :
    update_order_status s oid st =
      (.ok ⟨o.id, o.customer_name, st, L, o.created_by⟩,
       { s with orders := s.orders.map (fun o' =>
           if o'.id == oid then { o' with status := st } else o') }) := by
  have hpo : (o.id == oid) = true := by
    have hmem : o ∈ s.orders.filter (fun o' => o'.id == oid) := by
      have hdef : selectOrderById s oid = s.orders.filter (fun o' => o'.id == oid) := rfl
      rw [← hdef, h]
      exact List.mem_cons_self o t
    have hp := List.of_mem_filter hmem
    simpa using hp
  have hsel1 : selectOrderById
      { s with orders := s.orders.map (fun o' =>
          if o'.id == oid then { o' with status := st } else o') } oid =
      (selectOrderById s oid).map (fun o' =>
        if o'.id == oid then { o' with status := st } else o') := by
    unfold selectOrderById
    exact filter_map_pres _ _
      (fun o' => by by_cases hh : (o'.id == oid) = true <;> simp [hh]) s.orders
  have hjoin1 : joinOrderLines
      { s with orders := s.orders.map (fun o' =>
          if o'.id == oid then { o' with status := st } else o') } oid = some L :=
    (joinOrderLines_congr s
      { s with orders := s.orders.map (fun o' =>
          if o'.id == oid then { o' with status := st } else o') } oid rfl rfl).trans hj
  unfold update_order_status
  simp only [h, hsel1, hjoin1, List.map_cons, hpo, ite_true]

theorem c9_transition_any_status_witness :
    selectOrderById storeWithOrder 1 = [⟨1, "c", .pending, "u"⟩] ∧
    (update_order_status storeWithOrder 1 .fulfilled).1 =
      .ok ⟨1, "c", .fulfilled, [⟨1, "A", "Widget", 1⟩], "u"⟩ ∧
    (update_order_status storeWithOrder 1 .fulfilled).2.orders =
      [⟨1, "c", .fulfilled, "u"⟩] := by
  have h := c9_transition_any_status storeWithOrder 1 .fulfilled
    ⟨1, "c", .pending, "u"⟩ [] (by decide) [⟨1, "A", "Widget", 1⟩] (by decide)
  refine ⟨by decide, ?_, ?_⟩
  · rw [h]
  · rw [h]
    decide

/-- C10: the salesperson guard alone protects order creation (any other
role, admin included, is rejected with Forbidden before any processing); the
warehouse-manager-or-admin guard alone protects status transitions; any
authenticated role may read an order. -/
theorem c10_role_guards (role : String) (fs : FailSpec) (uid : String)
    (od : OrderCreate) (s : Store) (oid : Nat) (st : OrderStatus) :
    (role ≠ "salesperson" →
      create_order_endpoint fs role uid od s = (.forbidden, s, [])) ∧
    (role = "salesperson" →
      create_order_endpoint fs role uid od s = create_order fs uid od s) ∧
    (role ≠ "warehouse_manager" → role ≠ "admin" →
      update_order_status_endpoint role s oid st = (.forbidden, s)) ∧
    (role = "warehouse_manager" ∨ role = "admin" →
      update_order_status_endpoint role s oid st = update_order_status s oid st) ∧
    get_order_details_endpoint role s oid = get_order_details s oid := by
  refine ⟨?_, ?_, ?_, ?_, rfl⟩
  · intro hne
    unfold create_order_endpoint require_salesperson
    simp [hne]
  · intro heq
    subst heq
    rfl
  · intro h1 h2
    unfold update_order_status_endpoint require_warehouse_manager_or_admin
    simp [h1, h2]
  · intro hor
    unfold update_order_status_endpoint require_warehouse_manager_or_admin
    rcases hor with rfl | rfl <;> simp

theorem c10_role_guards_witness :
    ("admin" : String) ≠ "salesperson" ∧
    create_order_endpoint noFail "admin" "u" reqAB storeAB =
      (.forbidden, storeAB, []) ∧
    create_order_endpoint noFail "salesperson" "u" reqAB storeAB =
      create_order noFail "u" reqAB storeAB ∧
    update_order_status_endpoint "admin" storeAB 7 .pending =
      update_order_status storeAB 7 .pending ∧
    update_order_status_endpoint "guest" storeAB 7 .pending =
      (.forbidden, storeAB) ∧
    get_order_details_endpoint "guest" storeAB 7 = get_order_details storeAB 7 := by
  have ha := c10_role_guards "admin" noFail "u" reqAB storeAB 7 OrderStatus.pending
  have hs := c10_role_guards "salesperson" noFail "u" reqAB storeAB 7 OrderStatus.pending
  have hg := c10_role_guards "guest" noFail "u" reqAB storeAB 7 OrderStatus.pending
  exact ⟨by decide, ha.1 (by decide), hs.2.1 rfl,
    ha.2.2.2.1 (Or.inr rfl), hg.2.2.1 (by decide) (by decide), hg.2.2.2.2⟩

end Plywood
